import Mathlib

/-!
Verification development for the bitstring library.

The Python sources are shallowly embedded: a bit sequence is a List Bool in
MSB0 storage order (index 0 is the first, leftmost bit, exactly as the
underlying storage), Python ints are Int (or Nat where the source value is
provably non-negative), Python floats are modelled by the PFloat type below,
and functions that can raise are Except PyError valued.  Slices follow
Python slice semantics for non-negative indices (clamping at the ends).
-/

set_option maxRecDepth 10000
set_option linter.unusedVariables false

/-- Error kinds raised by the library (section 7 of the specification) plus
the builtin Python TypeError, which the code can also raise. -/
inductive PyError where
  | valueError
  | typeError
  | indexError
  | creationError
  | readError
  | interpretError
  deriving DecidableEq, Repr

/-- Python list/bitarray slice s[a:b] for non-negative bounds: the elements
from index a up to (excluding) b, clamped to the available range. -/
def pySlice (s : List Bool) (a b : Nat) : List Bool :=
  (s.drop a).take (b - a)

/-- Python slice assignment s[a:b] = v for non-negative bounds: the slice is
replaced by v (which may have a different length).  Modelled from the spec:
the helper that BitArray.__setitem__ delegates to is not under src, and the
spec describes in-place edits as splicing the replacement into the range. -/
def pySetSlice (s : List Bool) (a b : Nat) (v : List Bool) : List Bool :=
  s.take a ++ v ++ s.drop b

/-- BitStore.getindex from bitstore.py: a negative index is first offset by
the length, the adjusted index is range checked, and then the bit returned
is the one at storage offset (length - 1 - i), i.e. counted from the end. -/
def bitStoreGetindex (store : List Bool) (i : Int) : Except PyError Bool :=
  let i2 : Int := if i < 0 then i + store.length else i
  if i2 < 0 ∨ i2 ≥ store.length then .error .indexError
  else .ok (store.getD (store.length - 1 - i2.toNat) false)

/-- Bits.__getitem__ from bits.py on an integer key: it returns
bool(self._bitstore.getindex(key)) directly. -/
def bitsGetItemInt (s : List Bool) (i : Int) : Except PyError Bool :=
  bitStoreGetindex s i

/-- Modelled from the spec: BitStore.getslice_withstep, used by the slice
branch of Bits.__getitem__, is not under src.  Per the spec (sections 3 and
4.5), with the lsb0 option at its default False a step-1 slice returns the
bits at storage offsets start..end-1 in order (storage is MSB0). -/
def bitsGetSliceSpec (s : List Bool) (a b : Nat) : List Bool :=
  pySlice s a b

/-- ConstBitStream.__init__ from bitstream.py, the handling of the pos
argument: a negative pos is offset by the length of the bit store, and a
CreationError is raised when the adjusted pos is outside [0, length]. -/
def cbsInitPos (length : Nat) (pos : Int) : Except PyError Nat :=
  let p : Int := if pos < 0 then pos + length else pos
  if p < 0 ∨ p > length then .error .creationError
  else .ok p.toNat

/-- C10: constructing a ConstBitStream with an explicit pos first offsets a
negative pos by the bitstring length (pos = -1 denotes the last bit
position when the stream is non-empty), and construction raises
CreationError exactly when the adjusted pos lies outside [0, length]. -/
theorem cbsInitPos_adjusts_negative_pos (length : Nat) (pos : Int) :
    (cbsInitPos length pos =
      .ok (if pos < 0 then pos + length else pos).toNat ↔
      0 ≤ (if pos < 0 then pos + length else pos) ∧
        (if pos < 0 then pos + length else pos) ≤ length)
    ∧ (cbsInitPos length pos = .error .creationError ↔
      ¬ (0 ≤ (if pos < 0 then pos + length else pos) ∧
        (if pos < 0 then pos + length else pos) ≤ length))
    ∧ cbsInitPos length (-1) =
      (if 1 ≤ length then .ok (length - 1) else .error .creationError) := by
  unfold cbsInitPos
  dsimp only
  refine ⟨?_, ?_, ?_⟩ <;> split_ifs <;>
    (try simp only [Except.ok.injEq, reduceCtorEq, true_iff, false_iff,
      iff_true, iff_false, not_and, not_le]) <;>
    omega

deriving instance DecidableEq for Except

/-- C1: the claim states that with the lsb0 option at its default (False),
s[i] returns the bit at offset i from the leftmost bit, the same bit as the
slice s[i:i+1].  The code disagrees: BitStore.getindex reads the bit at
storage offset (length - 1 - i), so for s = 0b10 the single-bit access s[0]
yields False while the slice s[0:1] holds the leftmost bit True. -/
theorem bits_getindex_conflicts_with_slice :
    bitsGetItemInt [true, false] 0 = .ok false
    ∧ bitsGetSliceSpec [true, false] 0 1 = [true]
    ∧ bitsGetItemInt [true, false] 1 = .ok true
    ∧ bitsGetSliceSpec [true, false] 1 2 = [false] := by
  decide

/-- A ConstBitStream: an immutable bit sequence (MSB0 storage) together with
a cursor position. -/
structure ConstBitStreamM where
  bits : List Bool
  pos : Nat
  deriving DecidableEq, Repr

/-- Modelled from the spec: BitStore.find, called by ConstBitStream.find, is
not under src.  Per the spec (section 4.5) find returns the first position p
in [start, end - len(sub)] with s[p : p + len(sub)] = sub, restricted to
multiples of 8 when bytealigned; a negative result signals absence. -/
def bitStoreFindSpec (s sub : List Bool) (start endp : Nat)
    (bytealigned : Bool) : Int :=
  match (List.range (endp + 1)).find? (fun p =>
      decide (start ≤ p ∧ p + sub.length ≤ endp ∧
        (bytealigned → p % 8 = 0) ∧
        pySlice s p (p + sub.length) = sub)) with
  | some p => (p : Int)
  | none => -1

/-- ConstBitStream.find from bitstream.py: validates the arguments, byte
aligns the start when requested, delegates to the bit store search, and on
success moves the cursor to the found position and returns it. -/
def cbsFind (s : ConstBitStreamM) (bs : List Bool) (start? endp? : Option Int)
    (bytealigned : Bool) : Except PyError (ConstBitStreamM × Option Nat) :=
  if bs = [] then .error .valueError
  else
    let start : Int := start?.getD 0
    let endp : Int := endp?.getD s.bits.length
    if start < 0 ∨ endp > s.bits.length ∨ endp < start then .error .valueError
    else
      let start2 : Int := if bytealigned then (start + 7) / 8 * 8 else start
      let p : Int := bitStoreFindSpec s.bits bs start2.toNat endp.toNat
        bytealigned
      if p ≥ 0 then .ok ({ s with pos := p.toNat }, some p.toNat)
      else .ok (s, none)

/-- ConstBitStream.readto from bitstream.py: rejects an empty pattern, runs
find from the current position (which, on success, has already moved the
cursor to the match position), then slices the stream from its current
cursor up to the end of the match and leaves the cursor there. -/
def cbsReadto (s : ConstBitStreamM) (bs : List Bool) (bytealigned : Bool) :
    Except PyError (List Bool × ConstBitStreamM) :=
  if bs = [] then .error .valueError
  else
    match cbsFind s bs (some s.pos) none bytealigned with
    | .error e => .error e
    | .ok (_, none) => .error .readError
    | .ok (s1, some p) =>
      let endp := p + bs.length
      let rv := bitsGetSliceSpec s1.bits s1.pos endp
      .ok (rv, { s1 with pos := endp })

/-- C2: the claim states that readto(sub) returns the bits from the original
cursor position pos up to and including the end of the first match.  The
code disagrees: find has already moved the cursor to the match position p
before readto slices, so readto returns only s[p : p + len(sub)].  For the
stream 0b0011 with pos 0 and sub = 0b11 (first match at p = 2) the code
returns 0b11 rather than the claimed s[0:4] = 0b0011; the final cursor
position 4 and the ReadError on a missing pattern do agree with the claim. -/
theorem cbsReadto_drops_skipped_bits :
    cbsReadto ⟨[false, false, true, true], 0⟩ [true, true] false =
      .ok ([true, true], ⟨[false, false, true, true], 4⟩)
    ∧ bitsGetSliceSpec [false, false, true, true] 0 4 =
      [false, false, true, true]
    ∧ ([true, true] : List Bool) ≠ [false, false, true, true]
    ∧ cbsReadto ⟨[false, false, true, true], 0⟩ [true, false, false] false =
      .error .readError := by
  decide

/-- BitArray.rol from bitarray_.py: validate the arguments, reduce the
rotation amount modulo the range length, and splice the left-rotated
sub-range back between the untouched ends. -/
def bitArrayRol (s : List Bool) (bits : Int) (start? endp? : Option Int) :
    Except PyError (List Bool) :=
  if bits < 0 then .error .valueError
  else
    let st : Int := start?.getD 0
    let en : Int := endp?.getD s.length
    if st < 0 ∨ en > s.length ∨ st ≥ en then .error .valueError
    else if bits = 0 ∨ st = en then .ok s
    else
      let sliceLen : Int := en - st
      let b : Int := bits % sliceLen
      if b = 0 then .ok s
      else
        let rotated := pySlice s (st + b).toNat en.toNat ++
          pySlice s st.toNat (st + b).toNat
        .ok (s.take st.toNat ++ rotated ++ s.drop en.toNat)

/-- BitArray.ror from bitarray_.py: as rol, splicing the right-rotated
sub-range back between the untouched ends. -/
def bitArrayRor (s : List Bool) (bits : Int) (start? endp? : Option Int) :
    Except PyError (List Bool) :=
  if bits < 0 then .error .valueError
  else
    let st : Int := start?.getD 0
    let en : Int := endp?.getD s.length
    if st < 0 ∨ en > s.length ∨ st ≥ en then .error .valueError
    else if bits = 0 ∨ st = en then .ok s
    else
      let sliceLen : Int := en - st
      let b : Int := bits % sliceLen
      if b = 0 then .ok s
      else
        let rotated := pySlice s (en - b).toNat en.toNat ++
          pySlice s st.toNat (en - b).toNat
        .ok (s.take st.toNat ++ rotated ++ s.drop en.toNat)

theorem pySlice_length (s : List Bool) (a b : Nat) (h : b ≤ s.length) :
    (pySlice s a b).length = b - a := by
  simp only [pySlice, List.length_take, List.length_drop]
  omega

theorem pySlice_reassemble (s : List Bool) (st en : Nat) (h1 : st ≤ en)
    (h2 : en ≤ s.length) :
    s.take st ++ pySlice s st en ++ s.drop en = s := by
  have hd : (s.drop st).drop (en - st) = s.drop en := by
    rw [List.drop_drop]
    congr 1
    omega
  unfold pySlice
  rw [List.append_assoc, ← hd, List.take_append_drop, List.take_append_drop]

theorem pySlice_drop_part (s : List Bool) (st en b : Nat) :
    pySlice s (st + b) en = (pySlice s st en).drop b := by
  unfold pySlice
  rw [List.drop_take, List.drop_drop]
  congr 1
  omega

theorem pySlice_take_part (s : List Bool) (st en b : Nat)
    (hb : b ≤ en - st) :
    pySlice s st (st + b) = (pySlice s st en).take b := by
  unfold pySlice
  rw [List.take_take]
  congr 1
  omega

theorem splice_take (A X B : List Bool) (st : Nat) (hA : A.length = st) :
    ((A ++ X) ++ B).take st = A := by
  subst hA
  simp [List.take_append_eq_append_take, List.take_length]

theorem splice_drop (A X B : List Bool) (st en : Nat) (hA : A.length = st)
    (hX : X.length = en - st) (hst : st ≤ en) :
    ((A ++ X) ++ B).drop en = B := by
  have hlen : (A ++ X).length = en := by
    simp only [List.length_append, hA, hX]
    omega
  rw [List.drop_append_eq_append_drop, List.drop_eq_nil_of_le (by omega),
    List.nil_append, show en - (A ++ X).length = 0 by omega, List.drop_zero]

theorem splice_mid (A X B : List Bool) (st en : Nat) (hA : A.length = st)
    (hX : X.length = en - st) (hst : st ≤ en) :
    pySlice ((A ++ X) ++ B) st en = X := by
  unfold pySlice
  rw [List.append_assoc, List.drop_append_eq_append_drop,
    List.drop_eq_nil_of_le (by omega), List.nil_append,
    show st - A.length = 0 by omega, List.drop_zero,
    List.take_append_eq_append_take,
    show en - st - X.length = 0 by omega, List.take_zero, List.append_nil,
    List.take_of_length_le (by omega)]

theorem splice_length (A X B : List Bool) (s : List Bool) (st en : Nat)
    (hA : A = s.take st) (hB : B = s.drop en) (hX : X.length = en - st)
    (hst : st ≤ en) (hen : en ≤ s.length) :
    ((A ++ X) ++ B).length = s.length := by
  subst hA hB
  simp only [List.length_append, List.length_take, List.length_drop, hX]
  omega

theorem intmod_natCast (n st en : Nat) (h1 : st ≤ en) :
    (n : Int) % ((en : Int) - st) = ((n % (en - st) : Nat) : Int) := by
  have hc : (en : Int) - st = ((en - st : Nat) : Int) := by omega
  rw [hc, ← Int.natCast_mod]

theorem bitArrayRol_norm (s : List Bool) (n st en : Nat) (h1 : st < en)
    (h2 : en ≤ s.length) :
    bitArrayRol s (n : Int) (some (st : Int)) (some (en : Int)) =
      .ok (s.take st ++ (pySlice s st en).rotate (n % (en - st)) ++
        s.drop en) := by
  have hL : 0 < en - st := by omega
  have hmid : (pySlice s st en).length = en - st := pySlice_length s st en h2
  have hmod := intmod_natCast n st en (by omega)
  have hble : n % (en - st) ≤ en - st := le_of_lt (Nat.mod_lt _ hL)
  simp only [bitArrayRol, Option.getD_some]
  rw [if_neg (by omega : ¬ (n : Int) < 0)]
  rw [if_neg (by omega)]
  by_cases hn : n = 0
  · subst hn
    rw [if_pos (by norm_num)]
    rw [Nat.zero_mod, List.rotate_zero, pySlice_reassemble s st en (by omega) h2]
  · rw [if_neg (by omega)]
    by_cases hb : n % (en - st) = 0
    · rw [if_pos (by rw [hmod, hb]; norm_num)]
      rw [hb, List.rotate_zero, pySlice_reassemble s st en (by omega) h2]
    · rw [if_neg (by rw [hmod]; exact_mod_cast hb)]
      have e1 : ((st : Int) + (n : Int) % ((en : Int) - (st : Int))).toNat =
          st + n % (en - st) := by
        rw [hmod]; omega
      have e2 : ((en : Int)).toNat = en := by omega
      have e3 : ((st : Int)).toNat = st := by omega
      rw [e1, e2, e3, pySlice_drop_part, pySlice_take_part s st en _ hble,
        ← List.rotate_eq_drop_append_take (by rw [hmid]; exact hble)]

theorem bitArrayRor_norm (s : List Bool) (n st en : Nat) (h1 : st < en)
    (h2 : en ≤ s.length) :
    bitArrayRor s (n : Int) (some (st : Int)) (some (en : Int)) =
      .ok (s.take st ++
        (pySlice s st en).rotate ((en - st) - n % (en - st)) ++
        s.drop en) := by
  have hL : 0 < en - st := by omega
  have hmid : (pySlice s st en).length = en - st := pySlice_length s st en h2
  have hmod := intmod_natCast n st en (by omega)
  have hble : n % (en - st) ≤ en - st := le_of_lt (Nat.mod_lt _ hL)
  simp only [bitArrayRor, Option.getD_some]
  rw [if_neg (by omega : ¬ (n : Int) < 0)]
  rw [if_neg (by omega)]
  by_cases hn : n = 0
  · subst hn
    rw [if_pos (by norm_num)]
    rw [Nat.zero_mod, Nat.sub_zero, ← hmid, List.rotate_length,
      pySlice_reassemble s st en (by omega) h2]
  · rw [if_neg (by omega)]
    by_cases hb : n % (en - st) = 0
    · rw [if_pos (by rw [hmod, hb]; norm_num)]
      rw [hb, Nat.sub_zero, ← hmid, List.rotate_length,
        pySlice_reassemble s st en (by omega) h2]
    · rw [if_neg (by rw [hmod]; exact_mod_cast hb)]
      have e1 : ((en : Int) - (n : Int) % ((en : Int) - (st : Int))).toNat =
          st + ((en - st) - n % (en - st)) := by
        rw [hmod]; omega
      have e2 : ((en : Int)).toNat = en := by omega
      have e3 : ((st : Int)).toNat = st := by omega
      rw [e1, e2, e3, pySlice_drop_part,
        pySlice_take_part s st en _ (by omega),
        ← List.rotate_eq_drop_append_take (by rw [hmid]; omega)]

/-- C9: for a valid sub-range [start, end) the rotation amount is reduced
modulo the range length, applying rol(n) then ror(n) restores the original
contents, and rol(end - start) on its own leaves the contents unchanged. -/
theorem rol_ror_identity (s : List Bool) (n st en : Nat) (h1 : st < en)
    (h2 : en ≤ s.length) :
    (bitArrayRol s (n : Int) (some (st : Int)) (some (en : Int))).bind
        (fun s2 => bitArrayRor s2 (n : Int) (some (st : Int))
          (some (en : Int))) = .ok s
    ∧ bitArrayRol s ((en : Int) - (st : Int)) (some (st : Int))
        (some (en : Int)) = .ok s
    ∧ bitArrayRol s (n : Int) (some (st : Int)) (some (en : Int)) =
        bitArrayRol s ((n % (en - st) : Nat) : Int) (some (st : Int))
          (some (en : Int)) := by
  have hL : 0 < en - st := by omega
  have hmid : (pySlice s st en).length = en - st := pySlice_length s st en h2
  have hble : n % (en - st) ≤ en - st := le_of_lt (Nat.mod_lt _ hL)
  have hA : (s.take st).length = st := by
    rw [List.length_take]; omega
  refine ⟨?_, ?_, ?_⟩
  · rw [bitArrayRol_norm s n st en h1 h2]
    show bitArrayRor _ (n : Int) _ _ = _
    rw [bitArrayRor_norm _ n st en h1 (by
      rw [splice_length _ _ _ s st en rfl rfl (by rw [List.length_rotate]; exact hmid) (by omega) h2]
      exact h2)]
    rw [splice_take _ _ _ st hA,
      splice_mid _ _ _ st en hA (by rw [List.length_rotate]; exact hmid) (by omega),
      splice_drop _ _ _ st en hA (by rw [List.length_rotate]; exact hmid) (by omega),
      List.rotate_rotate]
    have hsum : n % (en - st) + ((en - st) - n % (en - st)) = en - st := by
      omega
    rw [hsum, ← hmid, List.rotate_length,
      pySlice_reassemble s st en (by omega) h2]
  · have hc : (en : Int) - (st : Int) = (((en - st : Nat)) : Int) := by omega
    rw [hc, bitArrayRol_norm s (en - st) st en h1 h2, Nat.mod_self,
      List.rotate_zero, pySlice_reassemble s st en (by omega) h2]
  · rw [bitArrayRol_norm s n st en h1 h2,
      bitArrayRol_norm s (n % (en - st)) st en h1 h2,
      Nat.mod_mod_of_dvd n (dvd_refl (en - st))]

/-- Witness for the C9 theorem at a concrete input. -/
theorem rol_ror_identity_witness :
    (0 : Nat) < 3 ∧ (3 : Nat) ≤ ([true, false, true, true] : List Bool).length
    ∧ ((bitArrayRol [true, false, true, true] ((5 : Nat) : Int)
        (some ((0 : Nat) : Int)) (some ((3 : Nat) : Int))).bind
          (fun s2 => bitArrayRor s2 ((5 : Nat) : Int) (some ((0 : Nat) : Int))
            (some ((3 : Nat) : Int))) = .ok [true, false, true, true]
      ∧ bitArrayRol [true, false, true, true] (((3 : Nat) : Int) - ((0 : Nat) : Int))
          (some ((0 : Nat) : Int)) (some ((3 : Nat) : Int)) = .ok [true, false, true, true]
      ∧ bitArrayRol [true, false, true, true] ((5 : Nat) : Int)
          (some ((0 : Nat) : Int)) (some ((3 : Nat) : Int)) =
        bitArrayRol [true, false, true, true] (((5 % (3 - 0) : Nat)) : Int)
          (some ((0 : Nat) : Int)) (some ((3 : Nat) : Int))) :=
  ⟨by decide, by decide,
    rol_ror_identity [true, false, true, true] 5 0 3 (by decide) (by decide)⟩

/-- The scanning loop of BitArray.replace from bitarray_.py.  One step per
fuel unit: while pos + len(old) <= end and replacements != count, skip to
the next byte boundary when bytealigned, replace a match by splicing new in
and advancing past it, otherwise advance one bit.  The fuel only bounds the
number of iterations; the wrapper passes enough for the loop to finish, and
exhaustion (which the Python loop cannot signal) yields none. -/
def replaceLoop (old new : List Bool) (endp : Nat) (cnt : Int)
    (bytealigned : Bool) :
    Nat → List Bool → Nat → Nat → Option (List Bool × Nat)
  | 0, _, _, _ => none
  | fuel + 1, s, pos, reps =>
    if pos + old.length ≤ endp ∧ (reps : Int) ≠ cnt then
      if bytealigned ∧ pos % 8 ≠ 0 then
        replaceLoop old new endp cnt bytealigned fuel s (pos + 1) reps
      else if pySlice s pos (pos + old.length) = old then
        replaceLoop old new endp cnt bytealigned fuel
          (pySetSlice s pos (pos + old.length) new) (pos + new.length)
          (reps + 1)
      else
        replaceLoop old new endp cnt bytealigned fuel s (pos + 1) reps
    else
      some (s, reps)

/-- BitArray.replace from bitarray_.py: an empty old raises ValueError, the
defaults are start = 0, end = len(self) and unlimited count (-1), invalid
start or end raise ValueError, and the scan returns the number of
replacements made. -/
def bitArrayReplace (s old new : List Bool) (start? endp? count? : Option Int)
    (bytealigned : Bool) : Except PyError (List Bool × Nat) :=
  if old = [] then .error .valueError
  else
    let st : Int := start?.getD 0
    let en : Int := endp?.getD s.length
    let cnt : Int := count?.getD (-1)
    if st < 0 ∨ en > s.length ∨ st > en then .error .valueError
    else
      match replaceLoop old new en.toNat cnt bytealigned
          (s.length + en.toNat + new.length + 2) s st.toNat 0 with
      | some r => .ok r
      -- fuel artifact; the passed fuel covers every run of the Python loop
      | none => .error .valueError

theorem replaceLoop_reps_le (old new : List Bool) (endp : Nat) (cnt : Int)
    (ba : Bool) (fuel : Nat) (s : List Bool) (pos reps : Nat)
    (s2 : List Bool) (r : Nat)
    (h : replaceLoop old new endp cnt ba fuel s pos reps = some (s2, r)) :
    reps ≤ r := by
  induction fuel generalizing s pos reps with
  | zero => simp [replaceLoop] at h
  | succ fuel ih =>
    unfold replaceLoop at h
    split_ifs at h with hc hba hm
    · exact ih _ _ _ h
    · exact le_trans (by omega) (ih _ _ _ h)
    · exact ih _ _ _ h
    · simp only [Option.some.injEq, Prod.mk.injEq] at h
      omega

theorem replaceLoop_zero_no_occurrence (old new : List Bool) (endp : Nat)
    (cnt : Int) (fuel : Nat) (s : List Bool) (pos : Nat) (s2 : List Bool)
    (hcnt : cnt ≠ 0)
    (h : replaceLoop old new endp cnt false fuel s pos 0 = some (s2, 0)) :
    s2 = s ∧ ∀ p, pos ≤ p → p + old.length ≤ endp →
      pySlice s p (p + old.length) ≠ old := by
  induction fuel generalizing s pos with
  | zero => simp [replaceLoop] at h
  | succ fuel ih =>
    unfold replaceLoop at h
    rw [if_neg (by simp : ¬((false : Bool) = true ∧ pos % 8 ≠ 0))] at h
    by_cases hc : pos + old.length ≤ endp ∧ ((0 : Nat) : Int) ≠ cnt
    · rw [if_pos hc] at h
      by_cases hm : pySlice s pos (pos + old.length) = old
      · rw [if_pos hm] at h
        have := replaceLoop_reps_le _ _ _ _ _ _ _ _ _ _ _ h
        omega
      · rw [if_neg hm] at h
        obtain ⟨hs2, hrest⟩ := ih _ _ h
        refine ⟨hs2, fun p hp hpe => ?_⟩
        rcases Nat.eq_or_lt_of_le hp with heq | hlt
        · subst heq
          exact hm
        · exact hrest p (by omega) hpe
    · rw [if_neg hc] at h
      simp only [Option.some.injEq, Prod.mk.injEq] at h
      refine ⟨h.1.symm, fun p hp hpe => ?_⟩
      have hne : ((0 : Nat) : Int) ≠ cnt := by
        simpa using Ne.symm hcnt
      have hgt : ¬ pos + old.length ≤ endp := fun hle => hc ⟨hle, hne⟩
      omega

/-- C4 counterexample: replacing 0b01 by 0b10 in 0b001 (defaults) performs
one replacement and returns 0b010, in which the pattern 0b01 still occurs
at position 0 of the replaced region — the claimed postcondition that no
occurrence of old remains is false. -/
theorem bitArrayReplace_leaves_occurrence :
    bitArrayReplace [false, false, true] [false, true] [true, false]
      none none none false = .ok ([false, true, false], 1)
    ∧ pySlice [false, true, false] 0
        (0 + ([false, true] : List Bool).length) = [false, true] := by
  decide

/-- C4 (amended): replace with an empty old raises ValueError, and the
forward scan advances past each inserted copy of new, returning the exact
number of replacements performed; occurrences of old may remain in the
replaced region when a replacement creates a new one, and the
no-occurrence guarantee holds exactly in the unreplaced case: when replace
returns 0 the contents are unchanged and old occurs nowhere in the
scanned region. -/
theorem bitArrayReplace_amended (s old new s2 : List Bool)
    (h : bitArrayReplace s old new none none none false = .ok (s2, 0)) :
    bitArrayReplace s [] new none none none false = .error .valueError
    ∧ s2 = s
    ∧ ∀ p, p + old.length ≤ s.length →
        pySlice s p (p + old.length) ≠ old := by
  refine ⟨by unfold bitArrayReplace; rw [if_pos rfl], ?_⟩
  by_cases hold : old = []
  · unfold bitArrayReplace at h
    rw [if_pos hold] at h
    exact absurd h (by simp)
  · unfold bitArrayReplace at h
    rw [if_neg hold] at h
    dsimp only at h
    simp only [Option.getD_none] at h
    rw [if_neg (show ¬((0 : Int) < 0 ∨ (s.length : Int) > (s.length : Int) ∨
      (0 : Int) > (s.length : Int)) by omega)] at h
    have e1 : ((s.length : Int)).toNat = s.length := by omega
    rw [show ((0 : Int)).toNat = 0 from rfl, e1] at h
    rcases hr : replaceLoop old new s.length (-1) false
        (s.length + s.length + new.length + 2) s 0 0 with _ | r
    · rw [hr] at h
      exact absurd h (by simp)
    · rw [hr] at h
      simp only [Except.ok.injEq] at h
      rw [h] at hr
      have hres := replaceLoop_zero_no_occurrence old new s.length (-1)
        (s.length + s.length + new.length + 2) s 0 s2 (by norm_num) hr
      exact ⟨hres.1, fun p hpe => hres.2 p (Nat.zero_le p) hpe⟩

/-- Witness for the amended C4 theorem at a concrete input. -/
theorem bitArrayReplace_amended_witness :
    bitArrayReplace [false, false] [true] [true] none none none false =
      .ok ([false, false], 0)
    ∧ (bitArrayReplace [false, false] [] [true] none none none false =
        .error .valueError
      ∧ [false, false] = ([false, false] : List Bool)
      ∧ ∀ p, p + ([true] : List Bool).length ≤
            ([false, false] : List Bool).length →
          pySlice [false, false] p (p + ([true] : List Bool).length) ≠
            [true]) :=
  ⟨by decide,
    bitArrayReplace_amended [false, false] [true] [true] [false, false]
      (by decide)⟩

/-- Python whitespace characters recognised by str.strip(). -/
def isPySpace (c : Char) : Bool :=
  c = ' ' ∨ c = '\t' ∨ c = '\n' ∨ c = '\x0d' ∨ c = '\x0b' ∨ c = '\x0c'

/-- Python str.strip(): remove leading and trailing whitespace. -/
def pyStrip (l : List Char) : List Char :=
  ((l.dropWhile isPySpace).reverse.dropWhile isPySpace).reverse

/-- Value of a non-empty list of decimal digit characters. -/
def digitsToNat (l : List Char) : Nat :=
  l.foldl (fun acc c => acc * 10 + (c.toNat - '0'.toNat)) 0

/-- Python int(str): optional surrounding whitespace, an optional sign and a
non-empty run of decimal digits; everything else raises ValueError.  (The
underscore digit separators accepted by Python do not occur in this
library's inputs and are not modelled.) -/
def pyIntParse (l : List Char) : Except PyError Int :=
  match pyStrip l with
  | '+' :: ds =>
    if ds ≠ [] ∧ ds.all Char.isDigit then .ok (digitsToNat ds)
    else .error .valueError
  | '-' :: ds =>
    if ds ≠ [] ∧ ds.all Char.isDigit then .ok (-(digitsToNat ds : Int))
    else .error .valueError
  | ds =>
    if ds ≠ [] ∧ ds.all Char.isDigit then .ok (digitsToNat ds)
    else .error .valueError

def pySplitAux (sep : Char) : List Char → List Char → List (List Char)
  | [], acc => [acc.reverse]
  | c :: rest, acc =>
    if c = sep then acc.reverse :: pySplitAux sep rest []
    else pySplitAux sep rest (c :: acc)

/-- Python str.split(sep): split on a separator, keeping empty pieces. -/
def pySplitOn (sep : Char) (l : List Char) : List (List Char) :=
  pySplitAux sep l []

def chunksOf8Aux : Nat → List Bool → List (List Bool)
  | 0, _ => []
  | _, [] => []
  | n + 1, l => l.take 8 :: chunksOf8Aux n (l.drop 8)

/-- Split a bit list into consecutive 8-bit groups (the bytes of tobytes);
the Nat argument of the auxiliary is only a structural bound. -/
def chunksOf8 (l : List Bool) : List (List Bool) :=
  chunksOf8Aux l.length l

/-- Bits.tobytes pads with zero bits up to the next byte boundary. -/
def padToByteBits (l : List Bool) : List Bool :=
  l ++ List.replicate ((8 - l.length % 8) % 8) false

/-- The byte-reversal step of BitArray.byteswap: export the slice as bytes,
reverse the byte order, and reimport the bits. -/
def reverseBytes (l : List Bool) : List Bool :=
  ((chunksOf8 (padToByteBits l)).reverse).flatten

/-- Inner for-loop of BitArray.byteswap over the sizes of one fmt pass
(positions are non-negative whenever the sizes are, as in every use the
claims exercise). -/
def byteswapPass (sizes : List Int) (s : List Bool) (pos : Int) :
    List Bool × Int :=
  sizes.foldl (fun acc size =>
    let a := acc.2.toNat
    let b := (acc.2 + size).toNat
    (pySetSlice acc.1 a b (reverseBytes (pySlice acc.1 a b)),
      acc.2 + size)) (s, pos)

/-- Outer while-loop of BitArray.byteswap; fuel only bounds the iteration
count (the wrapper passes enough to cover the range). -/
def byteswapLoop (sizes : List Int) (chunk en : Int) (rep : Bool) :
    Nat → List Bool → Int → Nat → List Bool × Nat
  | 0, s, _, reps => (s, reps)
  | fuel + 1, s, pos, reps =>
    if pos + chunk ≤ en then
      let pass := byteswapPass sizes s pos
      if rep then byteswapLoop sizes chunk en rep fuel pass.1 pass.2 (reps + 1)
      else (pass.1, reps + 1)
    else (s, reps)

/-- The fmt argument of BitArray.byteswap: None, an int, an iterable of
ints, or a string. -/
inductive PyByteswapFmt where
  | noFmt
  | intFmt (n : Int)
  | listFmt (l : List Int)
  | strFmt (s : String)

/-- The fmt-normalisation step of BitArray.byteswap: None or 0 become one
8-bit entry per byte of the range, an int n becomes n entries of 8 bits, a
list is taken as given (in bits), and a string is split on commas with each
piece parsed as an int and scaled by 8. -/
def byteswapResolveFmt (fmt : PyByteswapFmt) (st en : Int) :
    Except PyError (List Int) :=
  match fmt with
  | .noFmt => .ok (List.replicate ((en - st).toNat / 8) (8 : Int))
  | .intFmt n =>
    if n = 0 then .ok (List.replicate ((en - st).toNat / 8) (8 : Int))
    else .ok (List.replicate n.toNat (8 : Int))
  | .listFmt l => .ok l
  | .strFmt str =>
    ((pySplitOn ',' str.toList).filter (· ≠ [])).mapM
      (fun x => (pyIntParse x).map (· * 8))

/-- BitArray.byteswap from bitarray_.py: validate start and end, normalise
fmt to a list of bit sizes, silently drop the sizes that are not multiples
of 8, and repeatedly byte-reverse each chunk, returning the number of whole
fmt repetitions performed. -/
def bitArrayByteswap (s : List Bool) (fmt : PyByteswapFmt)
    (start? endp? : Option Int) (rep : Bool) :
    Except PyError (List Bool × Nat) :=
  let st : Int := start?.getD 0
  let en : Int := endp?.getD s.length
  if st < 0 ∨ en > s.length ∨ st > en then .error .valueError
  else
    match byteswapResolveFmt fmt st en with
    | .error e => .error e
    | .ok sizes0 =>
      let sizes := sizes0.filter (fun f => f % 8 == 0)
      if sizes = [] then .ok (s, 0)
      else
        let chunk := sizes.sum
        if chunk = 0 then .ok (s, 0)
        else .ok (byteswapLoop sizes chunk en rep (s.length + 2) s st 0)

/-- The sixteen bits of 0x0102. -/
def bits0102 : List Bool :=
  [false, false, false, false, false, false, false, true,
   false, false, false, false, false, false, true, false]

/-- The sixteen bits of 0x0201, which is 0x0102 with its two bytes
reversed. -/
def bits0201 : List Bool :=
  [false, false, false, false, false, false, true, false,
   false, false, false, false, false, false, false, true]

/-- C5: the claim states that byteswap(n) reverses the n bytes inside each
n-byte chunk and that a chunk size that is not a positive multiple of 8
bits is rejected as an error.  The code disagrees on both points: an int n
is expanded to n separate one-byte chunks (reversing each of which is a
no-op), so byteswap(2) on 0x0102 returns 1 but leaves the bits 0x0102
instead of producing 0x0201; and a non-multiple-of-8 chunk size, such as
fmt = [3], is silently filtered out, returning 0 without raising. -/
theorem byteswap_int_chunks_are_single_bytes :
    bitArrayByteswap bits0102 (.intFmt 2) none none true =
      .ok (bits0102, 1)
    ∧ bits0102 ≠ bits0201
    ∧ bitArrayByteswap bits0102 .noFmt none none true = .ok (bits0102, 1)
    ∧ bitArrayByteswap bits0102 (.listFmt [3]) none none true =
      .ok (bits0102, 0) := by
  decide


/-- An exact rational as an integer numerator over a positive integer
denominator.  All operations used by the float codecs keep the denominator
positive and are the textbook cross-multiplication formulas, so the type
models the exact values the Python code computes (no normalisation is
needed for that).  Equality of two PyRat values is compared with eqv. -/
structure PyRat where
  num : Int
  den : Int
  deriving DecidableEq, Repr

def PyRat.ofInt (n : Int) : PyRat := ⟨n, 1⟩

def PyRat.add (a b : PyRat) : PyRat :=
  ⟨a.num * b.den + b.num * a.den, a.den * b.den⟩

def PyRat.sub (a b : PyRat) : PyRat :=
  ⟨a.num * b.den - b.num * a.den, a.den * b.den⟩

def PyRat.mul (a b : PyRat) : PyRat := ⟨a.num * b.num, a.den * b.den⟩

/-- Division, keeping the denominator positive (exact when b is not 0). -/
def PyRat.div (a b : PyRat) : PyRat :=
  let n := a.num * b.den
  let d := a.den * b.num
  if d < 0 then ⟨-n, -d⟩ else ⟨n, d⟩

def PyRat.le (a b : PyRat) : Bool := a.num * b.den ≤ b.num * a.den

def PyRat.lt (a b : PyRat) : Bool := a.num * b.den < b.num * a.den

def PyRat.eqv (a b : PyRat) : Bool := a.num * b.den = b.num * a.den

/-- Floor of a PyRat (the denominator is positive, so euclidean division
is the floor). -/
def PyRat.floor (a : PyRat) : Int := a.num.ediv a.den

/-- Python 2 ** e for an integer e, as an exact rational. -/
def qpow2 (e : Int) : PyRat :=
  if 0 ≤ e then ⟨((2 ^ e.toNat : Nat) : Int), 1⟩
  else ⟨1, ((2 ^ (-e).toNat : Nat) : Int)⟩

def floorLog2Up : Nat → PyRat → Nat
  | 0, _ => 0
  | fuel + 1, q =>
    if q.lt (PyRat.ofInt 2) then 0
    else floorLog2Up fuel (q.div (PyRat.ofInt 2)) + 1

def floorLog2Down : Nat → PyRat → Nat
  | 0, _ => 0
  | fuel + 1, q =>
    if (PyRat.ofInt 1).le q then 0
    else floorLog2Down fuel (q.mul (PyRat.ofInt 2)) + 1

/-- Python math.floor(math.log2(q)) for a positive rational q: the unique k
with 2^k ≤ q < 2^(k + 1), found by repeated halving or doubling (the Nat
arguments of the auxiliaries are structural bounds large enough for any
positive input). -/
def floorLog2 (q : PyRat) : Int :=
  if (PyRat.ofInt 1).le q then (floorLog2Up (q.num.toNat + 1) q : Int)
  else -(floorLog2Down (q.den.toNat + 1) q : Int)

/-- Python round() on an exact value: round half to even. -/
def roundHalfEven (q : PyRat) : Int :=
  let n := q.floor
  let r := q.sub (PyRat.ofInt n)
  if r.lt ⟨1, 2⟩ then n
  else if (⟨1, 2⟩ : PyRat).lt r then n + 1
  else if n % 2 = 0 then n else n + 1

/-- A Python float as used by the 8-bit and MXFP codecs: NaN, a signed
infinity, or a finite value given as a sign bit and a non-negative exact
magnitude (so that negative zero is representable).  The finite values the
library feeds through these codecs are dyadic rationals on which the float
operations used (comparison, copysign, abs, floor of log2, division by a
power of two, subtraction of 1 inside [1, 2), round) are exact, so exact
rational arithmetic models them faithfully. -/
inductive PFloat where
  | nan
  | inf (neg : Bool)
  | fin (neg : Bool) (mag : PyRat)
  deriving DecidableEq, Repr

/-- Binary8Format from fp8.py: exp_bits and bias vary, the clamp codes are
fixed at 127 and 255 by the constructor. -/
structure Binary8Format where
  expBits : Nat
  bias : Int
  posClampValue : Nat
  negClampValue : Nat
  deriving DecidableEq, Repr

def p4binary_fmt : Binary8Format := ⟨4, 8, 127, 255⟩

def p3binary_fmt : Binary8Format := ⟨5, 16, 127, 255⟩

/-- Binary8Format.float_to_int8 from fp8.py.  NaN returns 0; a zero keeps
its sign bit; a positive (negative) value at or beyond 2^(clamp - bias)
(including the infinities, which satisfy every such comparison) returns the
positive (negative) clamp code; otherwise the exponent is floor(log2) plus
bias and the mantissa is rounded in 8 - exp_bits bits, with the code's
mantissa-overflow, subnormal and exponent-clamp adjustments, combined by
bitwise or exactly as in the source. -/
def float_to_int8 (fmt : Binary8Format) (f : PFloat) : Nat :=
  match f with
  | .nan => 0
  | .inf neg => if neg then fmt.negClampValue else fmt.posClampValue
  | .fin neg mag =>
    if mag.eqv (PyRat.ofInt 0) then (if neg then 128 else 0)
    else if ¬neg ∧ (qpow2 ((fmt.posClampValue : Int) - fmt.bias)).le mag then
      fmt.posClampValue
    else if neg ∧ (qpow2 ((fmt.negClampValue : Int) - 128 - fmt.bias)).le mag
      then fmt.negClampValue
    else
      let sign : Nat := if neg then 128 else 0
      let exponent : Int := floorLog2 mag + fmt.bias
      let mantissa : Int := roundHalfEven
        (((mag.div (qpow2 (exponent - fmt.bias))).sub (PyRat.ofInt 1)).mul
          (PyRat.ofInt ((2 ^ (8 - fmt.expBits) : Nat) : Int)))
      let em : Int × Int :=
        if mantissa = ((2 ^ (8 - fmt.expBits) : Nat) : Int) then
          (exponent + 1, 0)
        else (exponent, mantissa)
      let em2 : Int × Int :=
        if em.1 < 0 then (0, 1)
        else if em.1 ≥ (2 : Int) ^ fmt.expBits - 1 then
          ((2 : Int) ^ fmt.expBits - 1, 0)
        else em
      sign ||| (em2.1.toNat <<< (8 - fmt.expBits)) ||| em2.2.toNat

/-- The entry the createLUT_for_binary8_to_float loop of fp8.py computes
for code i: the sign, exponent and mantissa fields are unpacked with the
same shifts and masks as the source, an all-ones exponent gives an infinity
or NaN, a zero exponent gives zero (always positive, whatever the sign bit,
as in the source) or a subnormal, and anything else a normal value. -/
def binary8Decode (fmt : Binary8Format) (i : Nat) : PFloat :=
  let sign : Bool := decide (i &&& 128 ≠ 0)
  let exponent := (i >>> (8 - fmt.expBits)) &&& ((1 <<< fmt.expBits) - 1)
  let mantissa := i &&& ((1 <<< (8 - fmt.expBits)) - 1)
  if exponent = 0 then
    if mantissa = 0 then .fin false (PyRat.ofInt 0)
    else .fin sign ((PyRat.div (PyRat.ofInt mantissa)
        (PyRat.ofInt ((2 ^ (8 - fmt.expBits) : Nat) : Int))).mul
      (qpow2 (1 - fmt.bias)))
  else if exponent = (1 <<< fmt.expBits) - 1 then
    if mantissa = 0 then .inf sign else .nan
  else
    .fin sign (((PyRat.ofInt 1).add (PyRat.div (PyRat.ofInt mantissa)
        (PyRat.ofInt ((2 ^ (8 - fmt.expBits) : Nat) : Int)))).mul
      (qpow2 (exponent - fmt.bias)))

/-- C3: the claim states that NaN encodes to a reserved code distinct from
the code for zero and that every overflowing finite value clamps to 127 or
255.  The code disagrees: NaN encodes to 0, the very code of +0.0 (and 0
decodes to zero, not NaN, so the reserved NaN codes of the decoder are
never produced for NaN inputs); and a finite overflowing value below the
(far too large) threshold 2^(127 - bias) goes through the normal encoding
path, giving for p4binary8 inputs 125 and 200 the codes 239 and 240 instead
of the claimed 127.  The sign preservation of plus and minus zero and the
clamping of the two infinities do hold as claimed. -/
theorem binary8_nan_encodes_as_zero :
    float_to_int8 p4binary_fmt .nan = 0
    ∧ float_to_int8 p4binary_fmt (.fin false (PyRat.ofInt 0)) = 0
    ∧ float_to_int8 p4binary_fmt (.fin true (PyRat.ofInt 0)) = 128
    ∧ float_to_int8 p4binary_fmt (.inf false) = 127
    ∧ float_to_int8 p4binary_fmt (.inf true) = 255
    ∧ float_to_int8 p3binary_fmt .nan = 0
    ∧ binary8Decode p4binary_fmt (float_to_int8 p4binary_fmt .nan) ≠ .nan
    ∧ binary8Decode p4binary_fmt 241 = .nan
    ∧ float_to_int8 p4binary_fmt (.fin false (PyRat.ofInt 125)) = 239
    ∧ float_to_int8 p4binary_fmt (.fin false (PyRat.ofInt 200)) = 240 := by
  decide

/-- MXFPFormat from mxfp.py, together with the clamp codes computed by its
constructor. -/
structure MXFPFormat where
  expBits : Nat
  mantissaBits : Nat
  bias : Int
  mxfpOverflow : String
  posClampValue : Int
  negClampValue : Int
  deriving DecidableEq, Repr

/-- MXFPFormat.__init__ from mxfp.py: the generic clamp codes are the
all-ones patterns without and with the sign bit, and the e4m3 and e5m2
widths override them with hard-coded values that depend on the overflow
policy. -/
def mkMXFPFormat (expBits mantissaBits : Nat) (bias : Int)
    (mxfpOverflow : String) : MXFPFormat :=
  let pos0 : Int := ((1 <<< (expBits + mantissaBits) : Nat) : Int) - 1
  let neg0 : Int := ((1 <<< (1 + expBits + mantissaBits) : Nat) : Int) - 1
  let pn1 : Int × Int :=
    if expBits = 4 ∧ mantissaBits = 3 then
      if mxfpOverflow = "saturate" then (126, 254) else (255, 255)
    else (pos0, neg0)
  let pn2 : Int × Int :=
    if expBits = 5 ∧ mantissaBits = 2 then
      if mxfpOverflow = "saturate" then (123, 251) else (124, 252)
    else pn1
  ⟨expBits, mantissaBits, bias, mxfpOverflow, pn2.1, pn2.2⟩

def e2m1mxfp_fmt : MXFPFormat := mkMXFPFormat 2 1 1 "saturate"

def e2m3mxfp_fmt : MXFPFormat := mkMXFPFormat 2 3 1 "saturate"

def e3m2mxfp_fmt : MXFPFormat := mkMXFPFormat 3 2 3 "saturate"

def e4m3mxfp_saturate_fmt : MXFPFormat := mkMXFPFormat 4 3 7 "saturate"

def e5m2mxfp_saturate_fmt : MXFPFormat := mkMXFPFormat 5 2 15 "saturate"

def e4m3mxfp_overflow_fmt : MXFPFormat := mkMXFPFormat 4 3 7 "overflow"

def e5m2mxfp_overflow_fmt : MXFPFormat := mkMXFPFormat 5 2 15 "overflow"

/-- MXFPFormat.float_to_int from mxfp.py.  NaN gives the all-ones pattern,
zero gives 0, and an infinity or a finite magnitude at or beyond
2^(2^exp_bits - bias) gives the clamp code of the matching sign (the
source's saturate and overflow branches return the same expressions; the
policy only changes the clamp codes set by the constructor).  Every other
value goes through the normal path: exponent floor(log2) with the
subnormal lower bound 1 - bias, mantissa rounded in mantissa_bits bits,
fields combined by shifting and bitwise or exactly as in the source. -/
def mxfpFloatToInt (fmt : MXFPFormat) (f : PFloat) : Int :=
  match f with
  | .nan => ((1 <<< (fmt.expBits + fmt.mantissaBits + 1) : Nat) : Int) - 1
  | .inf neg => if neg then fmt.negClampValue else fmt.posClampValue
  | .fin neg mag =>
    if mag.eqv (PyRat.ofInt 0) then 0
    else
      let sign : Nat := if neg then 1 else 0
      if (qpow2 ((2 : Int) ^ fmt.expBits - fmt.bias)).le mag then
        if fmt.mxfpOverflow = "saturate" then
          (if sign = 1 then fmt.negClampValue else fmt.posClampValue)
        else
          (if sign = 1 then fmt.negClampValue else fmt.posClampValue)
      else
        let exp : Int := max (floorLog2 mag) (1 - fmt.bias)
        let mantissa : Int := roundHalfEven
          (((mag.div (qpow2 exp)).sub (PyRat.ofInt 1)).mul
            (PyRat.ofInt ((2 ^ fmt.mantissaBits : Nat) : Int)))
        let exp2 : Int := exp + fmt.bias
        -- sign and exp2 are non-negative, where the source's left shifts
        -- are multiplication by a power of two
        Int.lor (Int.lor ((sign : Int) * 2 ^ (fmt.expBits + fmt.mantissaBits))
          (exp2 * 2 ^ fmt.mantissaBits)) mantissa

/-- The entry the createLUT_for_int_to_float loop of mxfp.py computes for
code i: zero only for the all-zero exponent and mantissa, an all-ones
exponent giving infinity or NaN, and the normal formula for everything
else (including the codes with a zero exponent and non-zero mantissa). -/
def mxfpDecode (fmt : MXFPFormat) (i : Nat) : PFloat :=
  let sign : Bool :=
    decide (i &&& (1 <<< (fmt.expBits + fmt.mantissaBits)) ≠ 0)
  let exp := (i >>> fmt.mantissaBits) &&& ((1 <<< fmt.expBits) - 1)
  let mantissa := i &&& ((1 <<< fmt.mantissaBits) - 1)
  if exp = 0 ∧ mantissa = 0 then .fin false (PyRat.ofInt 0)
  else if exp = (1 <<< fmt.expBits) - 1 then
    if mantissa = 0 then .inf sign else .nan
  else
    .fin sign (((PyRat.ofInt 1).add ((PyRat.ofInt mantissa).div
        (PyRat.ofInt ((2 ^ fmt.mantissaBits : Nat) : Int)))).mul
      (qpow2 ((exp : Int) - fmt.bias)))

/-- C6: the claim states that every overflowing finite value encodes to the
clamp code under the saturate policy and to the infinity code under the
overflow policy.  The code disagrees: the overflow branch only fires at or
beyond 2^(2^exp_bits - bias), far above the largest finite magnitude, so
for e4m3 (largest finite magnitude 240, decoded from code 119) the finite
input 300 encodes through the normal path to 121 - a NaN code by the
format's own decoder - instead of the saturate clamp code 126; beyond the
threshold the policy-dependent clamp codes are returned as claimed (600
gives 126 under saturate, and under e4m3's overflow policy the clamp code
255 is again a NaN code, there being no e4m3 infinity code at all). -/
theorem mxfp_overflow_below_threshold_not_clamped :
    e4m3mxfp_saturate_fmt.posClampValue = 126
    ∧ mxfpDecode e4m3mxfp_saturate_fmt 119 = .fin false ⟨1920, 8⟩
    ∧ (PyRat.ofInt 240).eqv ⟨1920, 8⟩ = true
    ∧ mxfpFloatToInt e4m3mxfp_saturate_fmt (.fin false (PyRat.ofInt 300)) =
      121
    ∧ mxfpDecode e4m3mxfp_saturate_fmt 121 = .nan
    ∧ mxfpFloatToInt e4m3mxfp_saturate_fmt (.fin false (PyRat.ofInt 600)) =
      126
    ∧ mxfpFloatToInt e4m3mxfp_overflow_fmt (.fin false (PyRat.ofInt 600)) =
      255
    ∧ mxfpDecode e4m3mxfp_overflow_fmt 255 = .nan
    ∧ mxfpFloatToInt e5m2mxfp_overflow_fmt (.inf false) = 124
    ∧ mxfpDecode e5m2mxfp_overflow_fmt 124 = .inf false := by
  decide

/-- A word character of the token name pattern: [a-zA-Z0-9_]. -/
def isWordChar (c : Char) : Bool := c.isAlpha || c.isDigit || c = '_'

/-- A valid token name: a letter followed by word characters. -/
def validTokenName : List Char → Bool
  | [] => false
  | c :: rest => c.isAlpha && rest.all isWordChar

/-- The NAME_INT_RE pattern of utils.py, a letter-led name with a lazy
body, an optional colon and a digit tail anchored at the end.  With a colon
the name is everything before it and the digits everything after; without
one, laziness makes the digit group the longest digit suffix.  Returns the
name and the optional parsed length. -/
def nameIntMatch (t : List Char) : Option (List Char × Option Nat) :=
  if t.contains ':' then
    let name := t.takeWhile (· ≠ ':')
    let rest := (t.dropWhile (· ≠ ':')).tail
    if validTokenName name ∧ rest.all Char.isDigit then
      some (name, if rest = [] then none else some (digitsToNat rest))
    else none
  else
    let ds := (t.reverse.takeWhile Char.isDigit).reverse
    let name := t.take (t.length - ds.length)
    if validTokenName name then
      some (name, if ds = [] then none else some (digitsToNat ds))
    else none

/-- The DEFAULT_BITS pattern of utils.py: an optional non-empty run of
characters other than the equals sign, then optionally an equals sign and
the value.  It matches every token; the result is the optional len group
and the optional value group. -/
def defaultBitsMatch (t : List Char) :
    Option (List Char) × Option (List Char) :=
  if t.contains '=' then
    ((if t.takeWhile (· ≠ '=') = [] then none
      else some (t.takeWhile (· ≠ '='))),
     some ((t.dropWhile (· ≠ '=')).tail))
  else ((if t = [] then none else some t), none)

/-- The MULTIPLICATIVE_RE pattern of utils.py: a greedy factor, an
asterisk, and a non-empty rest; the greedy factor means splitting at the
last asterisk that has at least one character after it. -/
def multMatch (t : List Char) : Option (List Char × List Char) :=
  match ((List.range t.length).filter (fun i =>
      decide (t.getD i ' ' = '*' ∧ i + 1 < t.length))).getLast? with
  | some i => some (t.take i, t.drop (i + 1))
  | none => none

/-- Search for the BRACKET_RE pattern (digits, an asterisk, an opening
bracket): the first position holding a non-empty digit run followed by the
two punctuation characters.  Returns the position and the digit-run
length. -/
def bracketSearch (l : List Char) : Option (Nat × Nat) :=
  match (List.range l.length).find? (fun i =>
      let ds := (l.drop i).takeWhile Char.isDigit
      decide (ds ≠ [] ∧ l.getD (i + ds.length) ' ' = '*' ∧
        l.getD (i + ds.length + 1) ' ' = '(')) with
  | some i => some (i, ((l.drop i).takeWhile Char.isDigit).length)
  | none => none

/-- Python str.index of the closing bracket from position i on (the first
occurrence at or after i), as used by expand_brackets. -/
def closeBracketFrom (l : List Char) (i : Nat) : Option Nat :=
  (List.range l.length).find? (fun j => decide (i ≤ j ∧ l.getD j ' ' = ')'))

/-- expand_brackets from utils.py: repeatedly find a factor-bracket group,
replace it by factor comma-joined copies of its body, and start over; a
missing closing bracket raises (str.index ValueError).  The fuel bounds
the iteration count; the caller passes enough for bracket-free input and
for the shallow groups the format strings of this development contain. -/
def expandBrackets : Nat → List Char → Except PyError (List Char)
  | 0, l => .ok l
  | fuel + 1, l =>
    match bracketSearch l with
    | none => .ok l
    | some (i, dlen) =>
      match closeBracketFrom l i with
      | none => .error .valueError
      | some k =>
        let factor := digitsToNat ((l.drop i).take dlen)
        let sub := (l.drop (i + dlen + 2)).take (k - (i + dlen + 2))
        expandBrackets fuel
          (l.take i ++ List.intercalate [','] (List.replicate factor sub) ++
            l.drop (k + 1))

/-- A parsed token: name, optional length, optional value string. -/
abbrev PToken := String × Option Int × Option String

/-- Handling of one stripped, factor-free token by tokenparser of utils.py:
first the name pattern (recording a stretchy pad of unknown length), then
the catch-all bits pattern whose len group goes through int() - the call
that raises ValueError on a token neither pattern explains, such as a
struct-style compact token, which this tokenparser never routes to
structparser.  (The source's literal-pattern branch and final raise are
unreachable: the catch-all pattern matches every token first.) -/
def tokenizeOne (tok : List Char) (factor : Nat) (stretchy : Bool) :
    Except PyError (Bool × List PToken) :=
  match nameIntMatch tok with
  | some nl =>
    .ok (stretchy ∨ (String.mk nl.1 = "pad" ∧ nl.2 = none),
      List.replicate factor
        (String.mk nl.1, nl.2.map (fun n => (n : Int)), none))
  | none =>
    let lv := defaultBitsMatch tok
    match lv.1 with
    | none =>
      .ok (stretchy ∨ lv.2 = none,
        List.replicate factor (("bits" : String), none, lv.2.map String.mk))
    | some lstr =>
      match pyIntParse lstr with
      | .error e => .error e
      | .ok n =>
        .ok (stretchy,
          List.replicate factor (("bits" : String), some n, lv.2.map String.mk))

def tokenparserGo (keys : List String) :
    List (List Char) → Bool → List PToken → Except PyError (Bool × List PToken)
  | [], st, acc => .ok (st, acc)
  | t :: rest, st, acc =>
    let tok := pyStrip t
    if keys.contains (String.mk tok) then
      tokenparserGo keys rest st (acc ++ [(String.mk tok, none, none)])
    else
      match multMatch tok with
      | some fp =>
        match pyIntParse fp.1 with
        | .error e => .error e
        | .ok fac =>
          match tokenizeOne fp.2 fac.toNat st with
          | .error e => .error e
          | .ok str => tokenparserGo keys rest str.1 (acc ++ str.2)
      | none =>
        match tokenizeOne tok 1 st with
        | .error e => .error e
        | .ok str => tokenparserGo keys rest str.1 (acc ++ str.2)

/-- tokenparser from utils.py: expand brackets, split the format on commas,
strip each token and process it, returning the stretchy flag and the token
list. -/
def tokenparser (fmt : String) (keys : List String) :
    Except PyError (Bool × List PToken) :=
  match expandBrackets (fmt.length + 1) fmt.toList with
  | .error e => .error e
  | .ok l => tokenparserGo keys (pySplitOn ',' l) false []

/-- The letters of the struct-token alphabet. -/
def structCode (c : Char) : Bool := "bBhHlLqQefd".toList.contains c

def replacementsBE (c : Char) : String :=
  match c with
  | 'b' => "int8" | 'B' => "uint8" | 'h' => "intbe16" | 'H' => "uintbe16"
  | 'l' => "intbe32" | 'L' => "uintbe32" | 'q' => "intbe64"
  | 'Q' => "uintbe64" | 'e' => "floatbe16" | 'f' => "floatbe32"
  | 'd' => "floatbe64" | _ => ""

def replacementsLE (c : Char) : String :=
  match c with
  | 'b' => "int8" | 'B' => "uint8" | 'h' => "intle16" | 'H' => "uintle16"
  | 'l' => "intle32" | 'L' => "uintle32" | 'q' => "intle64"
  | 'Q' => "uintle64" | 'e' => "floatle16" | 'f' => "floatle32"
  | 'd' => "floatle64" | _ => ""

def replacementsNE (c : Char) : String :=
  match c with
  | 'b' => "int8" | 'B' => "uint8" | 'h' => "intne16" | 'H' => "uintne16"
  | 'l' => "intne32" | 'L' => "uintne32" | 'q' => "intne64"
  | 'Q' => "uintne64" | 'e' => "floatne16" | 'f' => "floatne32"
  | 'd' => "floatne64" | _ => ""

/-- The STRUCT_SPLIT_RE scan (finditer of optional digits followed by one
struct code letter): emit each group and advance past it, moving one
character on when no group starts at the current position.  The fuel is a
structural bound (the string length). -/
def structFinditerAux : Nat → List Char → List (List Char × Char)
  | 0, _ => []
  | fuel + 1, l =>
    match l with
    | [] => []
    | c :: rest =>
      if structCode c then ([], c) :: structFinditerAux fuel rest
      else if c.isDigit then
        match (c :: rest).dropWhile Char.isDigit with
        | c2 :: rest2 =>
          if structCode c2 then
            ((c :: rest).takeWhile Char.isDigit, c2) ::
              structFinditerAux fuel rest2
          else structFinditerAux fuel rest
        | [] => structFinditerAux fuel rest
      else structFinditerAux fuel rest

def structFinditer (l : List Char) : List (List Char × Char) :=
  structFinditerAux l.length l

/-- structparser from utils.py: choose the replacement table from the
endian character and expand each scanned group, a digit prefix meaning
that many copies of the replacement for its code letter. -/
def structparser (endian : Char) (fmt : String) : List String :=
  (structFinditer fmt.toList).flatMap (fun g =>
    let repl := if endian = '>' then replacementsBE g.2
      else if endian = '<' then replacementsLE g.2
      else replacementsNE g.2
    if g.1 = [] then [repl]
    else List.replicate (digitsToNat g.1) repl)

def structBodyConsume (l : List Char) : Option (List Char) :=
  match l.dropWhile Char.isDigit with
  | c :: rest => if structCode c then some rest else none
  | [] => none

def structBodyOkAux : Nat → List Char → Bool
  | 0, _ => false
  | fuel + 1, l =>
    match structBodyConsume l with
    | none => false
    | some [] => true
    | some rest => structBodyOkAux fuel rest

/-- The STRUCT_PACK_RE pattern of utils.py: an endian character followed by
one or more digit-prefixed struct code letters; returns the endian
character and the body.  tokenparser never consults it (that is the C7
finding), but it documents that the claimed token is a valid struct
token. -/
def structPackMatch (t : String) : Option (Char × String) :=
  match t.toList with
  | c :: rest =>
    if ("<>@=".toList.contains c) && structBodyOkAux (rest.length + 1) rest
    then some (c, String.mk rest)
    else none
  | [] => none

/-- C7: the claim states that parsing the struct-style compact token >2h4B
succeeds and yields two big-endian 16-bit signed integer tokens followed by
four 8-bit unsigned integer tokens.  The code disagrees: tokenparser never
tries the struct pattern (structparser is dead code), so the token falls
through to the catch-all bits pattern, whose int() call on the string
>2h4B raises ValueError.  The struct machinery itself would match and
expand the token exactly as the claim describes. -/
theorem tokenparser_rejects_struct_token :
    tokenparser ">2h4B" [] = .error .valueError
    ∧ structPackMatch ">2h4B" = some ('>', "2h4B")
    ∧ structparser '>' "2h4B" =
      ["intbe16", "intbe16", "uint8", "uint8", "uint8", "uint8"] := by
  decide

/-- A Python value passed to pack: only the shapes its callers use here. -/
inductive PyValue where
  | int (i : Int)
  | str (s : String)
  deriving DecidableEq, Repr

/-- pack from methods.py.  The source assigns tokens, _ = tokenparser(fmt),
but tokenparser returns the pair (stretchy_token, token_list), so the
variable called tokens receives the stretchy bool; the following for-loop
over it then raises TypeError (a bool is not iterable) on every call that
gets past tokenparser, and no value is ever packed. -/
def pack (fmt : String) (values : List PyValue)
    (kwargs : List (String × PyValue)) : Except PyError (List Bool) :=
  match tokenparser fmt [] with
  | .error e => .error e
  | .ok _ => .error .typeError

/-- C8: the claim states that pack consumes positional values in order,
raises CreationError on extra or missing values, and that
pack("uint:12, hex:16", 100, "0xabcd") serialises to 06 4A BC D0.  The
code disagrees: pack unpacks the result pair of tokenparser in the wrong
order, so every call raises TypeError before any value is consumed, and
never the claimed CreationError or BitStream result.  The format string
itself tokenizes fine, to a uint:12 and a hex:16 token with no stretchy
flag, in exactly the pair order the assignment in pack gets backwards. -/
theorem pack_always_raises_type_error :
    pack "uint:12, hex:16" [.int 100, .str "0xabcd"] [] = .error .typeError
    ∧ tokenparser "uint:12, hex:16" [] =
      .ok (false, [("uint", some 12, none), ("hex", some 16, none)])
    ∧ pack "uint:8" [.int 5] [] = .error .typeError := by
  decide
